import Mathlib

/-
  Verification of the SABER core synchronization and playback engine.

  Shallow embedding of the C++ sources:
    - src/core_audio/buffer.hpp      (RingBuffer, AudioBuffer)
    - src/protocol/sync.cpp          (SyncManager)
    - src/protocol/crypto.cpp        (MeshCrypto nonce and security tokens)
    - src/protocol/mesh.cpp          (MeshNetwork worker loop)
    - src/core_audio/sync_engine.cpp (SyncEngine)

  Buffers of machine floats are embedded over an arbitrary sample type with a
  zero element: the engine only copies samples and zero-fills, it never
  computes with them.  Machine integers are Nat/Int with explicit reductions
  mod 2^32 / 2^64 at the points where C++ wraparound can occur.

  The file has two parts: first the definitions embedding the source, then
  the theorems about them.
-/

set_option autoImplicit false

namespace Saber

/-- Overwrite a slice of a list starting at position pos, modelling
memcpy(&buf[pos], src, src.length) when pos + src.length ≤ buf.length. -/
def copyAt {α : Type} (buf : List α) (pos : Nat) (src : List α) : List α :=
  buf.take pos ++ src ++ buf.drop (pos + src.length)

/-- RingBuffer<T> from src/core_audio/buffer.hpp: backing vector plus the
capacity / write_pos / read_pos / size index triple. -/
structure RingBuffer (α : Type) where
  buffer : List α
  capacity : Nat
  write_pos : Nat
  read_pos : Nat
  size : Nat
  deriving Repr, DecidableEq

namespace RingBuffer

/-- RingBuffer constructor: zero positions, zero size, capacity-sized store. -/
def new (α : Type) [Inhabited α] (capacity : Nat) : RingBuffer α :=
  { buffer := List.replicate capacity default
    capacity := capacity
    write_pos := 0
    read_pos := 0
    size := 0 }

/-- Well-formedness of the index triple; established by the constructor and
preserved by every operation. -/
def wf {α : Type} (rb : RingBuffer α) : Prop :=
  rb.buffer.length = rb.capacity ∧ rb.size ≤ rb.capacity ∧
    rb.read_pos < rb.capacity ∧ rb.write_pos < rb.capacity

instance {α : Type} (rb : RingBuffer α) : Decidable rb.wf := by
  unfold wf; infer_instance

/-- RingBuffer::write — copies min(count, capacity − size) elements in at most
two contiguous memcpys, advances write_pos mod capacity, increments size.
Returns the new state and the number of elements written. -/
def write {α : Type} (rb : RingBuffer α) (data : List α) : RingBuffer α × Nat :=
  if data.length = 0 then (rb, 0)
  else
    let available := rb.capacity - rb.size
    let to_write := min data.length available
    if to_write = 0 then (rb, 0)
    else
      let first_part := min to_write (rb.capacity - rb.write_pos)
      let buf1 := copyAt rb.buffer rb.write_pos (data.take first_part)
      let buf2 :=
        if first_part < to_write then
          copyAt buf1 0 ((data.drop first_part).take (to_write - first_part))
        else buf1
      ({ rb with
          buffer := buf2
          write_pos := (rb.write_pos + to_write) % rb.capacity
          size := rb.size + to_write }, to_write)

/-- RingBuffer::read — consumes min(count, size) elements from the head in at
most two contiguous memcpys, advances read_pos mod capacity, decrements size.
Returns the new state and the elements read. -/
def read {α : Type} (rb : RingBuffer α) (count : Nat) : RingBuffer α × List α :=
  if count = 0 ∨ rb.size = 0 then (rb, [])
  else
    let to_read := min count rb.size
    let first_part := min to_read (rb.capacity - rb.read_pos)
    let out := (rb.buffer.drop rb.read_pos).take first_part ++
      (if first_part < to_read then rb.buffer.take (to_read - first_part) else [])
    ({ rb with
        read_pos := (rb.read_pos + to_read) % rb.capacity
        size := rb.size - to_read }, out)

/-- RingBuffer::peek — same copies as read on a local copy of read_pos; the
index triple is left untouched. -/
def peek {α : Type} (rb : RingBuffer α) (count : Nat) : RingBuffer α × List α :=
  if count = 0 ∨ rb.size = 0 then (rb, [])
  else
    let to_read := min count rb.size
    let first_part := min to_read (rb.capacity - rb.read_pos)
    let out := (rb.buffer.drop rb.read_pos).take first_part ++
      (if first_part < to_read then rb.buffer.take (to_read - first_part) else [])
    (rb, out)

/-- The FIFO contents of the ring: size elements starting at read_pos,
wrapping around the end of the backing store. -/
def toList {α : Type} (rb : RingBuffer α) : List α :=
  ((rb.buffer.drop rb.read_pos) ++ (rb.buffer.take rb.read_pos)).take rb.size

end RingBuffer

/-- One client operation on a ring buffer. -/
inductive RBOp (α : Type) where
  | write (data : List α)
  | read (count : Nat)
  | peek (count : Nat)
  deriving Repr

/-- Run a sequence of operations, accumulating the total number of elements
written and the total number of elements read. -/
def RingBuffer.runTotals {α : Type} (rb : RingBuffer α) :
    List (RBOp α) → RingBuffer α × Nat × Nat
  | [] => (rb, 0, 0)
  | RBOp.write data :: rest =>
      let p := rb.write data
      let r := p.1.runTotals rest
      (r.1, p.2 + r.2.1, r.2.2)
  | RBOp.read count :: rest =>
      let p := rb.read count
      let r := p.1.runTotals rest
      (r.1, r.2.1, p.2.length + r.2.2)
  | RBOp.peek count :: rest =>
      let r := (rb.peek count).1.runTotals rest
      r

/-- Two's-complement reinterpretation of a uint64 value as int64, modelling
static_cast<int64_t>(x) as used in src/protocol/sync.cpp (lines 41) and
src/core_audio/buffer.hpp (line 253). -/
def toInt64 (n : Nat) : Int :=
  if n % 2 ^ 64 < 2 ^ 63 then ((n % 2 ^ 64 : Nat) : Int)
  else ((n % 2 ^ 64 : Nat) : Int) - 2 ^ 64

/-- AudioBuffer from src/core_audio/buffer.hpp: timestamped sample store.
timestamp is the presentation time (ms) of the oldest frame in the ring.
Samples are interleaved across channels; the sample type is abstract (the
engine never computes with sample values, it only copies and zero-fills). -/
structure AudioBuffer (α : Type) where
  sample_rate : Nat
  channels : Nat
  buffer_ms : Nat
  samples_per_ms : Nat
  inner : RingBuffer α
  timestamp : Nat
  deriving Repr, DecidableEq

namespace AudioBuffer

/-- AudioBuffer constructor: samples_per_ms = sample_rate / 1000 (integer
division), ring capacity = samples_per_ms * buffer_ms * channels. -/
def new (α : Type) [Inhabited α] (sample_rate channels buffer_ms : Nat) : AudioBuffer α :=
  { sample_rate := sample_rate
    channels := channels
    buffer_ms := buffer_ms
    samples_per_ms := sample_rate / 1000
    inner := RingBuffer.new α (sample_rate / 1000 * buffer_ms * channels)
    timestamp := 0 }

/-- AudioBuffer::write_samples — if the ring is empty on entry the head
timestamp becomes ts; then the count*channels interleaved values (the list
samples) are written; returns frames written = elements written / channels. -/
def write_samples {α : Type} (ab : AudioBuffer α) (samples : List α) (ts : Nat) :
    AudioBuffer α × Nat :=
  let ab1 := if ab.inner.size = 0 then { ab with timestamp := ts } else ab
  let p := ab1.inner.write samples
  ({ ab1 with inner := p.1 }, p.2 / ab.channels)

/-- AudioBuffer::read_samples — the core playback policy: return 0 when
empty; zero-fill and return count when the int64 time difference is
negative; otherwise skip min(Δ·samples_per_ms, size/channels) frames,
advance the timestamp by skipped/samples_per_ms, read up to count*channels
samples, advance the timestamp by (read/channels)/samples_per_ms, and
return read/channels. The time difference is computed from the two uint64
timestamps through the int64 casts of buffer.hpp line 253 (toInt64), and
the uint64 timestamp updates wrap mod 2^64. -/
def read_samples {α : Type} [Zero α] (ab : AudioBuffer α) (count : Nat)
    (current_time : Nat) : AudioBuffer α × List α × Nat :=
  if ab.inner.size = 0 then (ab, [], 0)
  else
    let time_diff : Int := toInt64 current_time - toInt64 ab.timestamp
    if time_diff < 0 then
      (ab, List.replicate (count * ab.channels) 0, count)
    else
      let samples_to_skip :=
        min (time_diff.toNat * ab.samples_per_ms) (ab.inner.size / ab.channels)
      let inner1 :=
        if 0 < samples_to_skip then (ab.inner.read (samples_to_skip * ab.channels)).1
        else ab.inner
      let ts1 :=
        if 0 < samples_to_skip then
          (ab.timestamp + samples_to_skip / ab.samples_per_ms) % 2 ^ 64
        else ab.timestamp
      let p := inner1.read (count * ab.channels)
      ({ ab with
          inner := p.1
          timestamp := (ts1 + p.2.length / ab.channels / ab.samples_per_ms) % 2 ^ 64 },
        p.2, p.2.length / ab.channels)

/-- k successive device-callback reads of count frames, all at the same
clock reading now. -/
def readLoop {α : Type} [Zero α] (ab : AudioBuffer α) (count now : Nat) :
    Nat → AudioBuffer α
  | 0 => ab
  | k + 1 => ((ab.read_samples count now).1).readLoop count now k

end AudioBuffer

/-- SyncManager state from src/protocol/sync.cpp. -/
structure SyncManager where
  timeOffset : Int
  lastBeacon : Option Nat
  nodeLatencies : List (String × Nat)
  isSynced : Bool
  maxJitterMs : Nat
  deriving Repr, DecidableEq

namespace SyncManager

/-- Freshly constructed SyncManager: zero offset, no beacon, no latencies,
not synced, 5 ms jitter tolerance. -/
def init : SyncManager :=
  { timeOffset := 0, lastBeacon := none, nodeLatencies := [], isSynced := false,
    maxJitterMs := 5 }

/-- SyncManager::now — wall-clock ms plus the signed offset, with uint64
wraparound semantics on the unsigned addition/subtraction. The wall clock
reading is an explicit argument of the embedding. -/
def now (sm : SyncManager) (wallClockMs : Nat) : Nat :=
  let currentTime := wallClockMs % 2 ^ 64
  if 0 ≤ sm.timeOffset then
    (currentTime + sm.timeOffset.toNat % 2 ^ 64) % 2 ^ 64
  else
    (currentTime + 2 ^ 64 - (-sm.timeOffset).toNat % 2 ^ 64) % 2 ^ 64

/-- SyncManager::handleTimeBeacon — offset = (int64)masterTime −
(int64)wallClockMs, records the beacon instant, marks synced, returns true.
The wall clock and steady clock readings are explicit arguments. -/
def handleTimeBeacon (sm : SyncManager) (masterTime wallClockMs steadyNow : Nat) :
    SyncManager × Bool :=
  let currentTime := wallClockMs % 2 ^ 64
  let calculatedOffset := toInt64 masterTime - toInt64 currentTime
  ({ sm with
      timeOffset := calculatedOffset
      lastBeacon := some steadyNow
      isSynced := true }, true)

/-- SyncManager::calculateBufferAdjustment — uint32 arithmetic:
min(latency + 10, 40) where the addition wraps mod 2^32. -/
def calculateBufferAdjustment (nodeLatency : Nat) : Nat :=
  let bufferSize := (nodeLatency % 2 ^ 32 + 10) % 2 ^ 32
  min bufferSize 40

end SyncManager

/-- Little-endian byte image of the low 64 bits of a value, modelling
memcpy of a uint64 on a little-endian host. -/
def le64 (n : Nat) : List Nat :=
  [n % 256, n / 256 % 256, n / 256 ^ 2 % 256, n / 256 ^ 3 % 256,
    n / 256 ^ 4 % 256, n / 256 ^ 5 % 256, n / 256 ^ 6 % 256, n / 256 ^ 7 % 256]

/-- Little-endian byte image of the low 32 bits of a value, modelling
memcpy of the first 4 bytes of a uint64 on a little-endian host. -/
def le32 (n : Nat) : List Nat :=
  [n % 256, n / 256 % 256, n / 256 ^ 2 % 256, n / 256 ^ 3 % 256]

/-- Value of an 8-byte little-endian slice (memcpy into a uint64). -/
def fromLE64 (bs : List Nat) : Nat :=
  match bs with
  | [b0, b1, b2, b3, b4, b5, b6, b7] =>
      b0 + 256 * b1 + 256 ^ 2 * b2 + 256 ^ 3 * b3 + 256 ^ 4 * b4 + 256 ^ 5 * b5 +
        256 ^ 6 * b6 + 256 ^ 7 * b7
  | _ => 0

/-- Value of a 4-byte little-endian slice. -/
def fromLE32 (bs : List Nat) : Nat :=
  match bs with
  | [b0, b1, b2, b3] => b0 + 256 * b1 + 256 ^ 2 * b2 + 256 ^ 3 * b3
  | _ => 0

namespace MeshCrypto

/-- The nonce-relevant slice of MeshCrypto state: the monotone uint64
counter (src/include/crypto.h line 169). -/
structure NonceState where
  nonceCounter : Nat
  deriving Repr, DecidableEq

/-- MeshCrypto::generateNonce — increments the counter, then builds
8 bytes of millisecond timestamp followed by the low 4 bytes of the
counter (memcpy of 4 of the 8 counter bytes, little-endian host). -/
def generateNonce (st : NonceState) (timestampMs : Nat) : List Nat × NonceState :=
  let counter := (st.nonceCounter + 1) % 2 ^ 64
  (le64 (timestampMs % 2 ^ 64) ++ le32 (counter % 2 ^ 32), { nonceCounter := counter })

/-- State of the counter after k calls to generateNonce on a fresh
instance (the constructor zero-initialises nonceCounter). -/
def stateAfter (timestampMs : Nat) : Nat → NonceState
  | 0 => { nonceCounter := 0 }
  | k + 1 => (generateNonce (stateAfter timestampMs k) timestampMs).2

/-- The nonce returned by the k-th call (1-based) on a fresh instance,
all calls happening at the same millisecond timestamp. -/
def nthNonce (timestampMs k : Nat) : List Nat :=
  (generateNonce (stateAfter timestampMs (k - 1)) timestampMs).1

end MeshCrypto

/-- The typed crypto error tags of src/include/crypto.h. -/
inductive CryptoErrorType where
  | Encryption | Decryption | Signature | Verification | KeyExchange | Hash
  deriving Repr, DecidableEq

/-- Abstract model of the cryptographic primitives used by the token code:
AES-256-GCM encrypt/decrypt under the network key and Ed25519 detached
sign/verify against the instance keys and the registered public keys
(OpenSSL/libsodium calls in src/protocol/crypto.cpp). The token framing
below is taken from the source; these primitives are parameters. -/
structure TokenCrypto where
  enc : List Nat → List Nat
  dec : List Nat → Except CryptoErrorType (List Nat)
  sign : List Nat → List Nat
  sverify : List Nat → List Nat → List Nat → Except CryptoErrorType Bool

namespace TokenCrypto

/-- MeshCrypto::generateSecurityToken — payload = nodeId bytes ‖ 8-byte
timestamp ‖ 8-byte expiry (= timestamp + ttl·1000, uint64), followed by a
64-byte signature over the payload, all encrypted. The wall clock reading
is an explicit argument. -/
def generateSecurityToken (c : TokenCrypto) (nodeId : List Nat)
    (ttlSeconds nowMs : Nat) : List Nat :=
  let timestamp := nowMs % 2 ^ 64
  let expiry := (timestamp + ttlSeconds * 1000) % 2 ^ 64
  let tokenData := nodeId ++ le64 timestamp ++ le64 expiry
  let signature := c.sign tokenData
  c.enc (tokenData ++ signature)

/-- MeshCrypto::verifySecurityToken — decrypt, split off the trailing
64-byte signature, recover nodeId as the first payload−16 bytes and expiry
from the 8 bytes at nodeIdSize+8, reject with Verification when
current > expiry, then check the signature, returning (nodeId, expiry). -/
def verifySecurityToken (c : TokenCrypto) (token : List Nat) (currentMs : Nat) :
    Except CryptoErrorType (List Nat × Nat) :=
  match c.dec token with
  | Except.error e => Except.error e
  | Except.ok decrypted =>
    if decrypted.length < 8 + 8 + 64 then Except.error CryptoErrorType.Verification
    else
      let signature := decrypted.drop (decrypted.length - 64)
      let data := decrypted.take (decrypted.length - 64)
      let nodeIdSize := data.length - 16
      let nodeId := data.take nodeIdSize
      let expiry := fromLE64 ((data.drop (nodeIdSize + 8)).take 8)
      let current := currentMs % 2 ^ 64
      if expiry < current then Except.error CryptoErrorType.Verification
      else
        match c.sverify nodeId data signature with
        | Except.error e => Except.error e
        | Except.ok ok =>
          if ok then Except.ok (nodeId, expiry)
          else Except.error CryptoErrorType.Verification

end TokenCrypto

/-- A concrete instantiation of the primitive parameters: identity cipher,
constant 64-byte signature, always-accepting verifier. Used to evaluate
the token framing on concrete inputs. -/
def idTokenCrypto : TokenCrypto :=
  { enc := fun x => x
    dec := fun x => Except.ok x
    sign := fun _ => List.replicate 64 0
    sverify := fun _ _ _ => Except.ok true }

/-- Node roles from src/include/mesh.h. -/
inductive NodeRole where
  | Master | Repeater | Sink
  deriving Repr, DecidableEq

/-- Node from src/protocol/mesh.cpp. -/
structure Node where
  id : String
  role : NodeRole
  lastPing : Option Nat
  latency : Nat
  bufferState : Nat
  deriving Repr, DecidableEq

/-- MeshPacket: tagged union over the five wire message kinds,
embedded as a sum type. -/
inductive MeshPacket where
  | ping (source : String) (timestamp : Nat)
  | command (cmdType : String) (params : List (String × String))
  | status (nodeId : String) (buffer : Nat) (latency : Nat)
  | timeBeacon (masterTime : Nat)
  | emergencySync (masterTime : Nat) (targetNodes : List String)
  deriving Repr, DecidableEq

/-- The node registry slice of MeshNetwork state. -/
structure MeshNetworkState where
  nodes : List (String × Node)
  deriving Repr, DecidableEq

namespace MeshNetwork

/-- Apply f to the registered node with the given id, if present
(map::find followed by in-place mutation). -/
def updNode (st : MeshNetworkState) (nodeId : String) (f : Node → Node) :
    MeshNetworkState :=
  { st with nodes := st.nodes.map (fun p => if p.1 = nodeId then (p.1, f p.2) else p) }

/-- MeshNetwork::updateNodeStatus — updates buffer state and latency and
refreshes lastPing of a registered node. -/
def updateNodeStatus (st : MeshNetworkState) (nodeId : String)
    (bufferState latency nowSteady : Nat) : MeshNetworkState :=
  updNode st nodeId (fun n =>
    { n with bufferState := bufferState, latency := latency, lastPing := some nowSteady })

/-- MeshNetwork::processPacket — updates internal state per packet type
(Ping refreshes lastPing, Status goes through updateNodeStatus), then hands
the packet to the registered handler. The C++ body has no try/catch: an
exception thrown by the handler propagates to the caller, which the
Except.error result models. -/
def processPacket {ε : Type} (handler : MeshPacket → Except ε Unit)
    (st : MeshNetworkState) (nowSteady : Nat) (packet : MeshPacket) :
    Except ε MeshNetworkState :=
  let st2 :=
    match packet with
    | MeshPacket.ping source _ =>
        updNode st source (fun n => { n with lastPing := some nowSteady })
    | MeshPacket.status nodeId buffer latency =>
        updateNodeStatus st nodeId buffer latency nowSteady
    | _ => st
  match handler packet with
  | Except.error e => Except.error e
  | Except.ok _ => Except.ok st2

/-- The per-iteration drain of MeshNetwork::runNetworkLoop: process the
batch of packets swapped out of the queue, in order. An exception escaping
processPacket propagates out of the for loop (there is no handler around
it in the C++ source), aborting the batch. -/
def runBatch {ε : Type} (handler : MeshPacket → Except ε Unit)
    (st : MeshNetworkState) (nowSteady : Nat) :
    List MeshPacket → Except ε MeshNetworkState
  | [] => Except.ok st
  | p :: rest =>
    match processPacket handler st nowSteady p with
    | Except.error e => Except.error e
    | Except.ok st2 => runBatch handler st2 nowSteady rest

end MeshNetwork

/-- A handler that throws on pings from one particular source and accepts
everything else; used to evaluate the worker loop at a failing input. -/
def throwingHandler : MeshPacket → Except String Unit :=
  fun p =>
    match p with
    | MeshPacket.ping s _ =>
        if s = "boom" then Except.error "handler failure" else Except.ok ()
    | _ => Except.ok ()

/-- A registry holding one sink node n2 that has never pinged. -/
def demoMeshState : MeshNetworkState :=
  { nodes := [("n2",
      { id := "n2", role := NodeRole.Sink, lastPing := none, latency := 0,
        bufferState := 100 })] }

/-- Errors surfaced by the SyncEngine embedding: the runtime_error thrown
by start before initialize, and the invalid_argument thrown by
set_buffer_size_ms on a zero size. -/
inductive EngineError where
  | NotInitialized | InvalidArgument
  deriving Repr, DecidableEq

/-- AudioBuffer::set_buffer_size_ms — rejects 0, otherwise rebuilds the
ring at samples_per_ms * buffer_ms * channels and transfers the contents. -/
def AudioBuffer.set_buffer_size_ms {α : Type} [Inhabited α] (ab : AudioBuffer α)
    (buffer_ms : Nat) : Except EngineError (AudioBuffer α) :=
  if buffer_ms = 0 then Except.error EngineError.InvalidArgument
  else
    let buffer_size := ab.samples_per_ms * buffer_ms * ab.channels
    let p := ab.inner.read ab.inner.size
    let q := (RingBuffer.new α buffer_size).write p.2
    Except.ok { ab with buffer_ms := buffer_ms, inner := q.1 }

/-- SyncEngine from src/core_audio/sync_engine.cpp. audio_stream is none
until initialize has been called; the stream is modelled by its audio
buffer. -/
structure SyncEngine (α : Type) where
  sample_rate : Nat
  channels : Nat
  time_offset : Int
  is_active : Bool
  is_synchronized : Bool
  audio_stream : Option (AudioBuffer α)
  deriving Repr, DecidableEq

namespace SyncEngine

/-- SyncEngine constructor: no audio stream yet. -/
def new (α : Type) (sample_rate channels : Nat) : SyncEngine α :=
  { sample_rate := sample_rate
    channels := channels
    time_offset := 0
    is_active := false
    is_synchronized := false
    audio_stream := none }

/-- SyncEngine::initialize — allocates the audio stream with an initial
20 ms buffer at the configured rate and channel count. (The C++ method name
is a reserved word in Lean, hence the different name here.) -/
def initEngine {α : Type} [Inhabited α] (se : SyncEngine α) : SyncEngine α :=
  { se with audio_stream := some (AudioBuffer.new α se.sample_rate se.channels 20) }

/-- SyncEngine::start — throws runtime_error when initialize has not been
called; otherwise resizes the stream buffer to optimal_buffer_ms, waits for
pre-fill, starts the stream and marks the engine active. -/
def start {α : Type} [Inhabited α] (se : SyncEngine α) (optimal_buffer_ms : Nat) :
    Except EngineError (SyncEngine α) :=
  match se.audio_stream with
  | none => Except.error EngineError.NotInitialized
  | some ab =>
    match ab.set_buffer_size_ms optimal_buffer_ms with
    | Except.error e => Except.error e
    | Except.ok ab2 => Except.ok { se with audio_stream := some ab2, is_active := true }

/-- SyncEngine::writeAudioData — returns 0 when the stream is absent,
otherwise forwards to AudioBuffer::write_samples through
AudioStream::writeAudio. -/
def writeAudioData {α : Type} (se : SyncEngine α) (data : List α)
    (source_timestamp : Nat) : SyncEngine α × Nat :=
  match se.audio_stream with
  | none => (se, 0)
  | some ab =>
    let p := ab.write_samples data source_timestamp
    ({ se with audio_stream := some p.1 }, p.2)

end SyncEngine

/-- An 8 kHz stereo 10 ms audio buffer (samples_per_ms = 8, ring capacity
160) holding 80 frames written with source timestamp 1000. -/
def abDemo : AudioBuffer Int :=
  ((AudioBuffer.new Int 8000 2 10).write_samples (List.replicate 160 1) 1000).1

/-- A freshly constructed 48 kHz stereo SyncEngine on which initialize has
not been called. -/
def seFresh : SyncEngine Int := SyncEngine.new Int 48000 2

/-- A small concrete operation sequence for the ring-buffer run. -/
def demoOps : List (RBOp Int) :=
  [RBOp.write [1, 2, 3], RBOp.read 2, RBOp.peek 7, RBOp.write [4, 5, 6], RBOp.read 10]

/-
  Part two: theorems.
-/

theorem copyAt_length {α : Type} (buf : List α) (pos : Nat) (src : List α)
    (h : pos + src.length ≤ buf.length) : (copyAt buf pos src).length = buf.length := by
  simp [copyAt]
  omega

theorem toInt64_of_lt (n : Nat) (h : n < 2 ^ 63) : toInt64 n = (n : Int) := by
  have h64 : n % 2 ^ 64 = n := Nat.mod_eq_of_lt (by omega)
  rw [toInt64, h64, if_pos h]

namespace RingBuffer

theorem new_wf (α : Type) [Inhabited α] (capacity : Nat) (h : 0 < capacity) :
    (new α capacity).wf := by
  simp [new, wf, h]

theorem toList_length {α : Type} (rb : RingBuffer α) (h : rb.wf) :
    rb.toList.length = rb.size := by
  obtain ⟨hlen, hsz, hrp, hwp⟩ := h
  simp [toList]
  omega

theorem toList_eq_rotate {α : Type} (rb : RingBuffer α) (h : rb.wf) :
    rb.toList = (rb.buffer.rotate rb.read_pos).take rb.size := by
  obtain ⟨hlen, hsz, hrp, hwp⟩ := h
  rw [toList, List.rotate_eq_drop_append_take (by omega)]

theorem read_fst_size {α : Type} (rb : RingBuffer α) (count : Nat) :
    (rb.read count).1.size = rb.size - min count rb.size := by
  by_cases h : count = 0 ∨ rb.size = 0
  · rcases h with h | h <;> simp [read, h]
  · push_neg at h
    simp [read, h.1, h.2]

theorem read_fst_capacity {α : Type} (rb : RingBuffer α) (count : Nat) :
    (rb.read count).1.capacity = rb.capacity := by
  by_cases h : count = 0 ∨ rb.size = 0
  · rcases h with h | h <;> simp [read, h]
  · push_neg at h
    simp [read, h.1, h.2]

theorem read_fst_wf {α : Type} (rb : RingBuffer α) (count : Nat) (h : rb.wf) :
    (rb.read count).1.wf := by
  obtain ⟨hlen, hsz, hrp, hwp⟩ := h
  by_cases h0 : count = 0 ∨ rb.size = 0
  · rcases h0 with h0 | h0 <;> simp [read, h0, wf, hlen, hsz, hrp, hwp]
  · push_neg at h0
    refine ⟨by simp [read, h0.1, h0.2, hlen], by simp [read, h0.1, h0.2]; omega,
      ?_, by simp [read, h0.1, h0.2, hwp]⟩
    simp [read, h0.1, h0.2]
    exact Nat.mod_lt _ (by omega)

/-- Explicit form of read in the non-trivial branch. -/
theorem read_eq_of_ne {α : Type} (rb : RingBuffer α) (count : Nat)
    (h1 : count ≠ 0) (h2 : rb.size ≠ 0) :
    rb.read count =
      ({ rb with
          read_pos := (rb.read_pos + min count rb.size) % rb.capacity
          size := rb.size - min count rb.size },
        (rb.buffer.drop rb.read_pos).take
            (min (min count rb.size) (rb.capacity - rb.read_pos)) ++
          (if min (min count rb.size) (rb.capacity - rb.read_pos) < min count rb.size then
            rb.buffer.take
              (min count rb.size - min (min count rb.size) (rb.capacity - rb.read_pos))
          else [])) := by
  simp only [read]
  rw [if_neg (by simp [h1, h2])]

/-- The samples returned by read are the first min(count, size) FIFO
elements. -/
theorem read_snd_eq {α : Type} (rb : RingBuffer α) (count : Nat) (h : rb.wf) :
    (rb.read count).2 = rb.toList.take (min count rb.size) := by
  obtain ⟨hlen, hsz, hrp, hwp⟩ := h
  by_cases h0 : count = 0 ∨ rb.size = 0
  · rcases h0 with h0 | h0 <;> simp [read, h0, toList]
  · push_neg at h0
    have hcap : 0 < rb.capacity := by omega
    rw [read_eq_of_ne rb count h0.1 h0.2]
    dsimp only
    set tr := min count rb.size with htr
    have htr_le : tr ≤ rb.size := Nat.min_le_right _ _
    have htr_cap : tr ≤ rb.capacity := le_trans htr_le hsz
    rw [toList, List.take_take, Nat.min_eq_left htr_le]
    rw [List.take_append_eq_append_take, List.length_drop, hlen]
    by_cases hfp : tr ≤ rb.capacity - rb.read_pos
    · have hmin : min tr (rb.capacity - rb.read_pos) = tr := Nat.min_eq_left hfp
      rw [hmin, if_neg (lt_irrefl tr)]
      simp [show tr - (rb.capacity - rb.read_pos) = 0 by omega]
    · push_neg at hfp
      have hmin : min tr (rb.capacity - rb.read_pos) = rb.capacity - rb.read_pos :=
        Nat.min_eq_right (le_of_lt hfp)
      rw [hmin, if_pos hfp]
      congr 1
      · rw [List.take_of_length_le (by rw [List.length_drop, hlen]),
          List.take_of_length_le (by rw [List.length_drop, hlen]; omega)]
      · rw [List.take_take, Nat.min_eq_left (by omega)]

/-- Reading removes the returned elements from the head of the FIFO. -/
theorem read_fst_toList {α : Type} (rb : RingBuffer α) (count : Nat) (h : rb.wf) :
    (rb.read count).1.toList = rb.toList.drop (min count rb.size) := by
  have hwf := h
  obtain ⟨hlen, hsz, hrp, hwp⟩ := h
  by_cases h0 : count = 0 ∨ rb.size = 0
  · rcases h0 with h0 | h0 <;> simp [read, h0, toList]
  · push_neg at h0
    have hcap : 0 < rb.capacity := by omega
    rw [read_eq_of_ne rb count h0.1 h0.2]
    set tr := min count rb.size with htr
    have htr_le : tr ≤ rb.size := Nat.min_le_right _ _
    have htr_cap : tr ≤ rb.capacity := le_trans htr_le hsz
    have hnew_wf : ({ rb with
        read_pos := (rb.read_pos + tr) % rb.capacity
        size := rb.size - tr } : RingBuffer α).wf := by
      unfold wf
      exact ⟨hlen, le_trans (Nat.sub_le _ _) hsz, Nat.mod_lt _ (by omega), hwp⟩
    rw [toList_eq_rotate _ hnew_wf, toList_eq_rotate _ hwf]
    dsimp only
    have hmod : (rb.read_pos + tr) % rb.capacity = (rb.read_pos + tr) % rb.buffer.length := by
      rw [hlen]
    rw [hmod, List.rotate_mod, ← List.rotate_rotate, List.drop_take]
    have hrot_len : (rb.buffer.rotate rb.read_pos).length = rb.capacity := by
      rw [List.length_rotate, hlen]
    rw [List.rotate_eq_drop_append_take (by rw [hrot_len]; exact htr_cap)]
    rw [List.take_append_of_le_length (by rw [List.length_drop, hrot_len]; omega)]

theorem peek_fst {α : Type} (rb : RingBuffer α) (count : Nat) :
    (rb.peek count).1 = rb := by
  by_cases h : count = 0 ∨ rb.size = 0
  · rcases h with h | h <;> simp [peek, h]
  · push_neg at h
    simp [peek, h.1, h.2]

theorem write_snd_eq {α : Type} (rb : RingBuffer α) (data : List α) :
    (rb.write data).2 = min data.length (rb.capacity - rb.size) := by
  by_cases h : data.length = 0
  · simp [write, h]
  · by_cases h2 : min data.length (rb.capacity - rb.size) = 0
    · simp [write, h, h2]
    · simp [write, h, h2]

theorem write_fst_size {α : Type} (rb : RingBuffer α) (data : List α) :
    (rb.write data).1.size = rb.size + min data.length (rb.capacity - rb.size) := by
  by_cases h : data.length = 0
  · simp [write, h]
  · by_cases h2 : min data.length (rb.capacity - rb.size) = 0
    · simp [write, h, h2]
    · simp [write, h, h2]

theorem write_fst_capacity {α : Type} (rb : RingBuffer α) (data : List α) :
    (rb.write data).1.capacity = rb.capacity := by
  by_cases h : data.length = 0
  · simp [write, h]
  · by_cases h2 : min data.length (rb.capacity - rb.size) = 0
    · simp [write, h, h2]
    · simp [write, h, h2]

/-- Explicit form of write in the non-trivial branch. -/
theorem write_eq_of_ne {α : Type} (rb : RingBuffer α) (data : List α)
    (h1 : data.length ≠ 0) (h2 : min data.length (rb.capacity - rb.size) ≠ 0) :
    rb.write data =
      ({ rb with
          buffer :=
            if min (min data.length (rb.capacity - rb.size)) (rb.capacity - rb.write_pos) <
                min data.length (rb.capacity - rb.size) then
              copyAt
                (copyAt rb.buffer rb.write_pos
                  (data.take
                    (min (min data.length (rb.capacity - rb.size))
                      (rb.capacity - rb.write_pos))))
                0
                ((data.drop
                    (min (min data.length (rb.capacity - rb.size))
                      (rb.capacity - rb.write_pos))).take
                  (min data.length (rb.capacity - rb.size) -
                    min (min data.length (rb.capacity - rb.size))
                      (rb.capacity - rb.write_pos)))
            else
              copyAt rb.buffer rb.write_pos
                (data.take
                  (min (min data.length (rb.capacity - rb.size))
                    (rb.capacity - rb.write_pos)))
          write_pos := (rb.write_pos + min data.length (rb.capacity - rb.size)) % rb.capacity
          size := rb.size + min data.length (rb.capacity - rb.size) },
        min data.length (rb.capacity - rb.size)) := by
  simp only [write]
  rw [if_neg h1, if_neg h2]

theorem write_fst_wf {α : Type} (rb : RingBuffer α) (data : List α) (h : rb.wf) :
    (rb.write data).1.wf := by
  obtain ⟨hlen, hsz, hrp, hwp⟩ := h
  by_cases h0 : data.length = 0
  · simpa [write, h0] using ⟨hlen, hsz, hrp, hwp⟩
  · by_cases h2 : min data.length (rb.capacity - rb.size) = 0
    · simpa [write, h0, h2] using ⟨hlen, hsz, hrp, hwp⟩
    · have hcap : 0 < rb.capacity := by omega
      have htw := Nat.min_le_right data.length (rb.capacity - rb.size)
      have hfp := Nat.min_le_right (min data.length (rb.capacity - rb.size))
        (rb.capacity - rb.write_pos)
      rw [write_eq_of_ne rb data h0 h2]
      unfold wf
      refine ⟨?_, ?_, hrp, Nat.mod_lt _ hcap⟩
      · show (if _ then _ else _ : List α).length = rb.capacity
        split
        · rw [copyAt_length]
          · rw [copyAt_length]
            · exact hlen
            · simp only [List.length_take, hlen]
              omega
          · rw [copyAt_length]
            · simp only [Nat.zero_add, List.length_take, List.length_drop, hlen]
              omega
            · simp only [List.length_take, hlen]
              omega
        · rw [copyAt_length]
          · exact hlen
          · simp only [List.length_take, hlen]
            omega
      · show rb.size + min data.length (rb.capacity - rb.size) ≤ rb.capacity
        omega

theorem read_snd_length {α : Type} (rb : RingBuffer α) (count : Nat)
    (h : rb.wf) : (rb.read count).2.length = min count rb.size := by
  rw [read_snd_eq rb count h, List.length_take, toList_length rb h]
  rw [Nat.min_eq_left (Nat.min_le_right _ _)]

/-- Conservation and bounds are preserved by every step of a run. -/
theorem runTotals_invariant {α : Type} (ops : List (RBOp α)) :
    ∀ rb : RingBuffer α, rb.wf →
      (rb.runTotals ops).1.wf ∧
      (rb.runTotals ops).1.capacity = rb.capacity ∧
      rb.size + (rb.runTotals ops).2.1 = (rb.runTotals ops).2.2 + (rb.runTotals ops).1.size := by
  induction ops with
  | nil => intro rb h; exact ⟨h, rfl, by simp [runTotals]⟩
  | cons op rest ih =>
    intro rb h
    cases op with
    | write data =>
      obtain ⟨hwf, hcap, hcons⟩ := ih (rb.write data).1 (write_fst_wf rb data h)
      refine ⟨hwf, by rw [runTotals]; rw [hcap, write_fst_capacity], ?_⟩
      have hsz := write_fst_size rb data
      have hw := write_snd_eq rb data
      simp only [runTotals]
      omega
    | read count =>
      obtain ⟨hwf, hcap, hcons⟩ := ih (rb.read count).1 (read_fst_wf rb count h)
      refine ⟨hwf, by rw [runTotals]; rw [hcap, read_fst_capacity], ?_⟩
      have hsz := read_fst_size rb count
      have hr := read_snd_length rb count h
      have hle : min count rb.size ≤ rb.size := Nat.min_le_right _ _
      simp only [runTotals]
      omega
    | peek count =>
      obtain ⟨hwf, hcap, hcons⟩ := ih (rb.peek count).1 (by rw [peek_fst]; exact h)
      exact ⟨hwf, by rw [runTotals]; exact hcap.trans (by rw [peek_fst]), by
        simp only [runTotals]
        rw [peek_fst] at hcons ⊢
        omega⟩

end RingBuffer

namespace AudioBuffer

/-- Behaviour of read_samples on the Δ ≥ 0 path (shared backbone for the
skip-on-late and floor-division properties). The bound now < 2^63 keeps
both uint64 timestamps in the range where the source's int64 casts and
subtraction are exact and free of signed overflow. -/
theorem read_samples_late_spec {α : Type} [Zero α] (ab : AudioBuffer α)
    (count now : Nat) (hwf : ab.inner.wf)
    (hne : ab.inner.size ≠ 0) (hts : ab.timestamp ≤ now) (hlt : now < 2 ^ 63) :
    ab.read_samples count now =
      ({ ab with
          inner := ((ab.inner.read
              (min ((now - ab.timestamp) * ab.samples_per_ms)
                (ab.inner.size / ab.channels) * ab.channels)).1.read
            (count * ab.channels)).1
          timestamp := (ab.timestamp +
            min ((now - ab.timestamp) * ab.samples_per_ms)
              (ab.inner.size / ab.channels) / ab.samples_per_ms +
            min (count * ab.channels)
                (ab.inner.size -
                  min ((now - ab.timestamp) * ab.samples_per_ms)
                    (ab.inner.size / ab.channels) * ab.channels) /
              ab.channels / ab.samples_per_ms) % 2 ^ 64 },
        (ab.inner.toList.drop
            (min ((now - ab.timestamp) * ab.samples_per_ms)
              (ab.inner.size / ab.channels) * ab.channels)).take
          (min (count * ab.channels)
            (ab.inner.size -
              min ((now - ab.timestamp) * ab.samples_per_ms)
                (ab.inner.size / ab.channels) * ab.channels)),
        min (count * ab.channels)
            (ab.inner.size -
              min ((now - ab.timestamp) * ab.samples_per_ms)
                (ab.inner.size / ab.channels) * ab.channels) /
          ab.channels) := by
  have htsI : toInt64 ab.timestamp = (ab.timestamp : Int) := toInt64_of_lt _ (by omega)
  have hnowI : toInt64 now = (now : Int) := toInt64_of_lt _ hlt
  have hdiff : ¬ (toInt64 now - toInt64 ab.timestamp < 0) := by
    rw [htsI, hnowI]; omega
  have htoNat : (toInt64 now - toInt64 ab.timestamp).toNat = now - ab.timestamp := by
    rw [htsI, hnowI]; omega
  set skip := min ((now - ab.timestamp) * ab.samples_per_ms)
    (ab.inner.size / ab.channels) with hskip
  have hskip_le : skip * ab.channels ≤ ab.inner.size := by
    calc skip * ab.channels
        ≤ ab.inner.size / ab.channels * ab.channels :=
          Nat.mul_le_mul_right _ (Nat.min_le_right _ _)
      _ ≤ ab.inner.size := Nat.div_mul_le_self _ _
  have hskip_read_size :
      (ab.inner.read (skip * ab.channels)).1.size = ab.inner.size - skip * ab.channels := by
    rw [RingBuffer.read_fst_size, Nat.min_eq_left hskip_le]
  have hskip_read_toList :
      (ab.inner.read (skip * ab.channels)).1.toList =
        ab.inner.toList.drop (skip * ab.channels) := by
    rw [RingBuffer.read_fst_toList _ _ hwf, Nat.min_eq_left hskip_le]
  have hskip_read_wf : (ab.inner.read (skip * ab.channels)).1.wf :=
    RingBuffer.read_fst_wf _ _ hwf
  by_cases hpos : 0 < skip
  · -- the skip branch is taken
    simp only [read_samples, if_neg hne, if_neg hdiff, htoNat, ← hskip, if_pos hpos]
    have h2 := RingBuffer.read_snd_eq (ab.inner.read (skip * ab.channels)).1
      (count * ab.channels) hskip_read_wf
    have h2len := RingBuffer.read_snd_length (ab.inner.read (skip * ab.channels)).1
      (count * ab.channels) hskip_read_wf
    rw [h2len, h2, hskip_read_size, hskip_read_toList, Nat.mod_add_mod]
  · -- skip = 0: the skip block is not executed
    have hskip0 : skip = 0 := Nat.eq_zero_of_not_pos hpos
    have hread0 : ab.inner.read 0 = (ab.inner, []) := by
      simp [RingBuffer.read]
    have h2 := RingBuffer.read_snd_eq ab.inner (count * ab.channels) hwf
    have h2len := RingBuffer.read_snd_length ab.inner (count * ab.channels) hwf
    simp only [read_samples, if_neg hne, if_neg hdiff, htoNat, ← hskip, if_neg hpos,
      hskip0, Nat.zero_mul, Nat.sub_zero, Nat.zero_div, Nat.add_zero, List.drop_zero,
      hread0, ite_self, lt_self_iff_false, if_false]
    rw [h2len, h2]

end AudioBuffer

theorem le64_length (n : Nat) : (le64 n).length = 8 := rfl

theorem fromLE64_le64 (n : Nat) (h : n < 2 ^ 64) : fromLE64 (le64 n) = n := by
  simp only [le64, fromLE64]
  omega

theorem fromLE32_le32 (n : Nat) : fromLE32 (le32 n) = n % 2 ^ 32 := by
  simp only [le32, fromLE32]
  omega

theorem le32_inj (a b : Nat) (ha : a < 2 ^ 32) (hb : b < 2 ^ 32)
    (h : le32 a = le32 b) : a = b := by
  have h2 := congrArg fromLE32 h
  rw [fromLE32_le32, fromLE32_le32, Nat.mod_eq_of_lt ha, Nat.mod_eq_of_lt hb] at h2
  exact h2

namespace MeshCrypto

theorem stateAfter_counter (timestampMs : Nat) :
    ∀ k : Nat, (stateAfter timestampMs k).nonceCounter = k % 2 ^ 64 := by
  intro k
  induction k with
  | zero => rfl
  | succ k ih =>
    show ((stateAfter timestampMs k).nonceCounter + 1) % 2 ^ 64 = (k + 1) % 2 ^ 64
    rw [ih]
    omega

theorem nthNonce_eq (timestampMs k : Nat) (hk : 1 ≤ k) :
    nthNonce timestampMs k = le64 (timestampMs % 2 ^ 64) ++ le32 (k % 2 ^ 32) := by
  rw [nthNonce, generateNonce, stateAfter_counter]
  have h1 : ((k - 1) % 2 ^ 64 + 1) % 2 ^ 64 = k % 2 ^ 64 := by omega
  rw [h1]
  have h2 : k % 2 ^ 64 % 2 ^ 32 = k % 2 ^ 32 :=
    Nat.mod_mod_of_dvd k (by norm_num)
  rw [h2]

end MeshCrypto

namespace TokenCrypto

/-- Result of verifying a token produced by generateSecurityToken, for any
primitives satisfying the AEAD round-trip, 64-byte signatures, and
verification of own signatures: acceptance is decided by
expiry < current (strict). -/
theorem verify_generate (c : TokenCrypto) (nodeId : List Nat)
    (ttl nowMs current : Nat)
    (hdec : ∀ x, c.dec (c.enc x) = Except.ok x)
    (hsiglen : ∀ m, (c.sign m).length = 64)
    (hsver : ∀ m, c.sverify nodeId m (c.sign m) = Except.ok true)
    (hsum : nowMs + ttl * 1000 < 2 ^ 64) (hcur : current < 2 ^ 64) :
    c.verifySecurityToken (c.generateSecurityToken nodeId ttl nowMs) current =
      if nowMs + ttl * 1000 < current then Except.error CryptoErrorType.Verification
      else Except.ok (nodeId, nowMs + ttl * 1000) := by
  have hnow64 : nowMs % 2 ^ 64 = nowMs := Nat.mod_eq_of_lt (by omega)
  have hexp64 : (nowMs + ttl * 1000) % 2 ^ 64 = nowMs + ttl * 1000 :=
    Nat.mod_eq_of_lt hsum
  have hcur64 : current % 2 ^ 64 = current := Nat.mod_eq_of_lt hcur
  set td := nodeId ++ le64 nowMs ++ le64 (nowMs + ttl * 1000) with htd
  have hgen : c.generateSecurityToken nodeId ttl nowMs = c.enc (td ++ c.sign td) := by
    simp only [generateSecurityToken, hnow64, hexp64, htd]
  have htdlen : td.length = nodeId.length + 16 := by
    simp [htd, le64]
  have hslen := hsiglen td
  have hlen : (td ++ c.sign td).length = nodeId.length + 80 := by
    rw [List.length_append, htdlen, hslen]
  simp only [verifySecurityToken, hgen, hdec]
  rw [if_neg (by omega)]
  have hsplit : (td ++ c.sign td).length - 64 = td.length := by omega
  rw [hsplit, List.drop_left, List.take_left]
  have hids : td.length - 16 = nodeId.length := by omega
  rw [hids]
  have hid : td.take nodeId.length = nodeId := by
    rw [htd, List.append_assoc]
    exact List.take_left' rfl
  rw [hid]
  have hdropped : td.drop (nodeId.length + 8) = le64 (nowMs + ttl * 1000) := by
    rw [htd]
    exact List.drop_left' (by rw [List.length_append, le64_length])
  rw [hdropped, List.take_of_length_le (by rw [le64_length]),
    fromLE64_le64 _ hsum, hcur64, hsver td]
  by_cases hc : nowMs + ttl * 1000 < current
  · rw [if_pos hc, if_pos hc]
  · rw [if_neg hc, if_neg hc]
    rfl

end TokenCrypto

namespace AudioBuffer

/-- A single on-time read of fewer than samples_per_ms frames: consumes
min(count·channels, size) samples but leaves the head timestamp unchanged,
and preserves well-formedness and the configuration fields. -/
theorem read_samples_small_step {α : Type} [Zero α] (ab : AudioBuffer α) (count : Nat)
    (hwf : ab.inner.wf) (hch : 0 < ab.channels) (hcount : count < ab.samples_per_ms)
    (hts63 : ab.timestamp < 2 ^ 63) :
    (ab.read_samples count ab.timestamp).1.timestamp = ab.timestamp ∧
    (ab.read_samples count ab.timestamp).1.inner.size =
      ab.inner.size - count * ab.channels ∧
    (ab.read_samples count ab.timestamp).1.inner.wf ∧
    (ab.read_samples count ab.timestamp).1.channels = ab.channels ∧
    (ab.read_samples count ab.timestamp).1.samples_per_ms = ab.samples_per_ms := by
  by_cases hne : ab.inner.size = 0
  · have hread : ab.read_samples count ab.timestamp = (ab, [], 0) := by
      simp [read_samples, hne]
    rw [hread]
    exact ⟨rfl, by show ab.inner.size = ab.inner.size - count * ab.channels; omega,
      hwf, rfl, rfl⟩
  · rw [read_samples_late_spec ab count ab.timestamp hwf hne le_rfl hts63]
    dsimp only
    rw [Nat.sub_self]
    simp only [Nat.zero_mul, Nat.zero_min, Nat.zero_div, Nat.add_zero, Nat.sub_zero]
    have hread0 : ab.inner.read 0 = (ab.inner, []) := by
      simp [RingBuffer.read]
    rw [hread0]
    dsimp only
    refine ⟨?_, ?_, RingBuffer.read_fst_wf _ _ hwf, by trivial, by trivial⟩
    · have hle : min (count * ab.channels) ab.inner.size / ab.channels ≤ count := by
        calc min (count * ab.channels) ab.inner.size / ab.channels
            ≤ count * ab.channels / ab.channels :=
              Nat.div_le_div_right (Nat.min_le_left _ _)
          _ = count := Nat.mul_div_cancel _ hch
      rw [Nat.div_eq_of_lt (lt_of_le_of_lt hle hcount), Nat.add_zero]
      exact Nat.mod_eq_of_lt (by omega)
    · rw [RingBuffer.read_fst_size]
      omega

/-- Iterating small on-time reads never advances the head timestamp and
drains count·channels samples per call (saturating at empty). -/
theorem readLoop_small {α : Type} [Zero α] (count : Nat) :
    ∀ (k : Nat) (ab : AudioBuffer α) (now : Nat), ab.inner.wf → 0 < ab.channels →
      count < ab.samples_per_ms → ab.timestamp < 2 ^ 63 → now = ab.timestamp →
      (ab.readLoop count now k).timestamp = ab.timestamp ∧
      (ab.readLoop count now k).inner.size =
        ab.inner.size - k * (count * ab.channels) := by
  intro k
  induction k with
  | zero =>
    intro ab now h1 h2 h3 h4 hnow
    exact ⟨rfl, by simp [readLoop]⟩
  | succ k ih =>
    intro ab now h1 h2 h3 h4 hnow
    subst hnow
    obtain ⟨hts, hsz, hwf2, hch2, hspm2⟩ := read_samples_small_step ab count h1 h2 h3 h4
    rw [readLoop]
    obtain ⟨ihts, ihsz⟩ := ih (ab.read_samples count ab.timestamp).1 ab.timestamp hwf2
      (by rw [hch2]; exact h2) (by rw [hspm2]; exact h3) (by rw [hts]; exact h4) hts.symm
    refine ⟨by rw [ihts, hts], ?_⟩
    rw [ihsz, hsz, hch2]
    rw [show (k + 1) * (count * ab.channels) =
      k * (count * ab.channels) + count * ab.channels by ring]
    omega

end AudioBuffer

/-
  The claims.
-/

/-- C1: silence-on-early — for every non-empty AudioBuffer, read_samples with
now strictly before the head timestamp writes count·channels zero samples,
returns count frames, and leaves the whole buffer (ring contents and head
timestamp) unchanged. The bound timestamp < 2^63 keeps both uint64
timestamps in the range where the source's int64 time-diff casts are exact
(so now < timestamp coincides with the source taking the silence branch). -/
theorem C1_silence_on_early {α : Type} [Zero α] (ab : AudioBuffer α) (count now : Nat)
    (hne : ab.inner.size ≠ 0) (hts63 : ab.timestamp < 2 ^ 63)
    (hearly : now < ab.timestamp) :
    ab.read_samples count now = (ab, List.replicate (count * ab.channels) 0, count) := by
  have hdiff : toInt64 now - toInt64 ab.timestamp < 0 := by
    rw [toInt64_of_lt now (by omega), toInt64_of_lt ab.timestamp hts63]
    omega
  simp only [AudioBuffer.read_samples, if_neg hne, if_pos hdiff]

set_option maxRecDepth 4000 in
/-- C1 witness: 80 frames written at ts 1000, read at now 900. -/
theorem C1_witness :
    abDemo.inner.size ≠ 0 ∧ abDemo.timestamp < 2 ^ 63 ∧
    (900 : Nat) < abDemo.timestamp ∧
    abDemo.read_samples 40 900 =
      (abDemo, List.replicate (40 * abDemo.channels) 0, 40) :=
  ⟨by decide, by decide, by decide,
    C1_silence_on_early abDemo 40 900 (by decide) (by decide) (by decide)⟩

/-- C2: skip-on-late — for every non-empty AudioBuffer with Δ = now − head
timestamp > 0, read_samples first discards skipped = min(Δ·samples_per_ms,
size/channels) frames and advances the head timestamp by
skipped/samples_per_ms, then reads the next min(count·channels, remaining)
samples, advances the head timestamp by read_frames/samples_per_ms, and
returns the number of frames read. The head timestamp advances are uint64
additions, stated mod 2^64; the bound now < 2^63 keeps both timestamps in
the range where the source's int64 time-diff casts are exact (so
timestamp < now coincides with the source taking the Δ > 0 path). -/
theorem C2_skip_on_late {α : Type} [Zero α] (ab : AudioBuffer α) (count now : Nat)
    (hwf : ab.inner.wf) (hch : 0 < ab.channels) (hspm : 0 < ab.samples_per_ms)
    (hne : ab.inner.size ≠ 0) (hlate : ab.timestamp < now) (hnow : now < 2 ^ 63) :
    (ab.read_samples count now).2.2 =
      min (count * ab.channels)
        (ab.inner.size -
          min ((now - ab.timestamp) * ab.samples_per_ms) (ab.inner.size / ab.channels) *
            ab.channels) / ab.channels ∧
    (ab.read_samples count now).2.1 =
      (ab.inner.toList.drop
        (min ((now - ab.timestamp) * ab.samples_per_ms) (ab.inner.size / ab.channels) *
          ab.channels)).take
        (min (count * ab.channels)
          (ab.inner.size -
            min ((now - ab.timestamp) * ab.samples_per_ms) (ab.inner.size / ab.channels) *
              ab.channels)) ∧
    (ab.read_samples count now).1.timestamp =
      (ab.timestamp +
        min ((now - ab.timestamp) * ab.samples_per_ms) (ab.inner.size / ab.channels) /
          ab.samples_per_ms +
        min (count * ab.channels)
          (ab.inner.size -
            min ((now - ab.timestamp) * ab.samples_per_ms) (ab.inner.size / ab.channels) *
              ab.channels) / ab.channels / ab.samples_per_ms) % 2 ^ 64 ∧
    (ab.read_samples count now).1.inner.size =
      ab.inner.size -
        min ((now - ab.timestamp) * ab.samples_per_ms) (ab.inner.size / ab.channels) *
          ab.channels -
        min (count * ab.channels)
          (ab.inner.size -
            min ((now - ab.timestamp) * ab.samples_per_ms) (ab.inner.size / ab.channels) *
              ab.channels) ∧
    (ab.read_samples count now).1.inner.toList =
      ab.inner.toList.drop
        (min ((now - ab.timestamp) * ab.samples_per_ms) (ab.inner.size / ab.channels) *
            ab.channels +
          min (count * ab.channels)
            (ab.inner.size -
              min ((now - ab.timestamp) * ab.samples_per_ms) (ab.inner.size / ab.channels) *
                ab.channels)) := by
  have hskip_le :
      min ((now - ab.timestamp) * ab.samples_per_ms) (ab.inner.size / ab.channels) *
        ab.channels ≤ ab.inner.size := by
    calc min ((now - ab.timestamp) * ab.samples_per_ms) (ab.inner.size / ab.channels) *
          ab.channels
        ≤ ab.inner.size / ab.channels * ab.channels :=
          Nat.mul_le_mul_right _ (Nat.min_le_right _ _)
      _ ≤ ab.inner.size := Nat.div_mul_le_self _ _
  rw [AudioBuffer.read_samples_late_spec ab count now hwf hne (le_of_lt hlate) hnow]
  dsimp only
  refine ⟨rfl, rfl, rfl, ?_, ?_⟩
  · rw [RingBuffer.read_fst_size, RingBuffer.read_fst_size, Nat.min_eq_left hskip_le]
  · rw [RingBuffer.read_fst_toList _ _ (RingBuffer.read_fst_wf _ _ hwf),
      RingBuffer.read_fst_toList _ _ hwf, RingBuffer.read_fst_size,
      Nat.min_eq_left hskip_le, List.drop_drop]

set_option maxRecDepth 4000 in
/-- C2 witness: 8 kHz stereo, 80 frames written at ts 1000, 16 frames read
at now 1005 — 40 frames skipped, 16 returned, head timestamp 1007. -/
theorem C2_witness :
    abDemo.inner.wf ∧ 0 < abDemo.channels ∧ 0 < abDemo.samples_per_ms ∧
    abDemo.inner.size ≠ 0 ∧ abDemo.timestamp < 1005 ∧ (1005 : Nat) < 2 ^ 63 ∧
    (abDemo.read_samples 16 1005).1.timestamp = 1007 ∧
    (abDemo.read_samples 16 1005).2.2 = 16 := by
  refine ⟨by decide, by decide, by decide, by decide, by decide, by decide, ?_, ?_⟩
  · rw [(C2_skip_on_late abDemo 16 1005 (by decide) (by decide) (by decide)
      (by decide) (by decide) (by decide)).2.2.1]
    decide
  · rw [(C2_skip_on_late abDemo 16 1005 (by decide) (by decide) (by decide)
      (by decide) (by decide) (by decide)).1]
    decide

/-- C3: time-offset law — handle_time_beacon(M) at wall clock W sets the
offset to M − W, records the beacon, marks synced and returns true, and a
later now() at wall clock Wp returns M + (Wp − W), for realistic clock
values (below 2^63, no uint64 wraparound of the result). -/
theorem C3_time_offset_law (sm : SyncManager) (M W Wp B : Nat)
    (hM : M < 2 ^ 63) (hW : W < 2 ^ 63) (hWp : Wp < 2 ^ 64) (hle : W ≤ Wp)
    (hsum : M + (Wp - W) < 2 ^ 64) :
    (sm.handleTimeBeacon M W B).2 = true ∧
    (sm.handleTimeBeacon M W B).1.timeOffset = (M : Int) - (W : Int) ∧
    (sm.handleTimeBeacon M W B).1.lastBeacon = some B ∧
    (sm.handleTimeBeacon M W B).1.isSynced = true ∧
    (sm.handleTimeBeacon M W B).1.now Wp = M + (Wp - W) := by
  have hW64 : W % 2 ^ 64 = W := Nat.mod_eq_of_lt (by omega)
  have hoff : (sm.handleTimeBeacon M W B).1.timeOffset = (M : Int) - (W : Int) := by
    simp only [SyncManager.handleTimeBeacon, hW64, toInt64_of_lt M hM, toInt64_of_lt W hW]
  refine ⟨rfl, hoff, rfl, rfl, ?_⟩
  simp only [SyncManager.now, hoff]
  by_cases hMW : W ≤ M
  · rw [if_pos (by omega)]
    rw [show ((M : Int) - (W : Int)).toNat = M - W by omega]
    omega
  · rw [if_neg (by omega)]
    rw [show (-((M : Int) - (W : Int))).toNat = W - M by omega]
    omega

/-- C3 witness: beacon 5123 at wall clock 5000; now() at wall clock 5005
returns 5128. -/
theorem C3_witness :
    (5123 < 2 ^ 63) ∧
    (SyncManager.init.handleTimeBeacon 5123 5000 777).1.isSynced = true ∧
    (SyncManager.init.handleTimeBeacon 5123 5000 777).1.now 5005 = 5123 + (5005 - 5000) :=
  ⟨by decide,
    (C3_time_offset_law SyncManager.init 5123 5000 5005 777 (by decide) (by decide)
      (by decide) (by decide) (by decide)).2.2.2.1,
    (C3_time_offset_law SyncManager.init 5123 5000 5005 777 (by decide) (by decide)
      (by decide) (by decide) (by decide)).2.2.2.2⟩

/-- C4: ring buffer conservation — starting from a fresh ring of capacity
N > 0, after every step of any operation sequence 0 ≤ size ≤ N; the total
elements written equal the total elements read plus the final size; write
copies exactly min(n, N − size) elements, read exactly min(m, size), and
peek leaves the state (size, read_pos, write_pos) unchanged. -/
theorem C4_ring_conservation {α : Type} [Inhabited α] (N : Nat) (hN : 0 < N)
    (ops : List (RBOp α)) :
    (∀ pre suf : List (RBOp α), ops = pre ++ suf →
      ((RingBuffer.new α N).runTotals pre).1.size ≤ N) ∧
    ((RingBuffer.new α N).runTotals ops).2.1 =
      ((RingBuffer.new α N).runTotals ops).2.2 +
        ((RingBuffer.new α N).runTotals ops).1.size ∧
    (∀ (rb : RingBuffer α) (data : List α),
      (rb.write data).2 = min data.length (rb.capacity - rb.size)) ∧
    (∀ rb : RingBuffer α, rb.wf → ∀ m : Nat, (rb.read m).2.length = min m rb.size) ∧
    (∀ (rb : RingBuffer α) (k : Nat), (rb.peek k).1 = rb) := by
  have hwf := RingBuffer.new_wf α N hN
  refine ⟨?_, ?_, fun rb data => RingBuffer.write_snd_eq rb data,
    fun rb h m => RingBuffer.read_snd_length rb m h,
    fun rb k => RingBuffer.peek_fst rb k⟩
  · intro pre suf hps
    obtain ⟨hwf2, hcap, hcons⟩ :=
      RingBuffer.runTotals_invariant pre (RingBuffer.new α N) hwf
    have hsz := hwf2.2.1
    rw [hcap] at hsz
    simpa [RingBuffer.new] using hsz
  · obtain ⟨hwf2, hcap, hcons⟩ :=
      RingBuffer.runTotals_invariant ops (RingBuffer.new α N) hwf
    simpa [RingBuffer.new] using hcons

/-- C4 witness: a concrete interleaving on a capacity-4 ring. -/
theorem C4_witness :
    (0 < 4) ∧
    ((RingBuffer.new Int 4).runTotals demoOps).2.1 =
      ((RingBuffer.new Int 4).runTotals demoOps).2.2 +
        ((RingBuffer.new Int 4).runTotals demoOps).1.size :=
  ⟨by decide, (C4_ring_conservation 4 (by decide) demoOps).2.1⟩

/-- C5 counterexample: calculateBufferAdjustment works in uint32
arithmetic, so at latency 4294967286 = 2^32 − 10 the addition wraps: the
result is 0, not min(latency + 10, 40) = 40, and the function is not
non-decreasing (f(4294967285) = 40 > f(4294967286) = 0). -/
theorem C5_counterexample :
    SyncManager.calculateBufferAdjustment 4294967286 = 0 ∧
    min (4294967286 + 10) 40 = 40 ∧
    SyncManager.calculateBufferAdjustment 4294967285 = 40 ∧
    ¬ SyncManager.calculateBufferAdjustment 4294967285 ≤
        SyncManager.calculateBufferAdjustment 4294967286 := by
  decide

/-- C5 (amended): away from the uint32 wrap (latency + 10 < 2^32),
calculateBufferAdjustment(l) = min(l + 10, 40) and is non-decreasing
there; its result never exceeds 40 for any input. -/
theorem C5_buffer_adjustment_amended (l : Nat) :
    (l + 10 < 2 ^ 32 → SyncManager.calculateBufferAdjustment l = min (l + 10) 40) ∧
    SyncManager.calculateBufferAdjustment l ≤ 40 ∧
    (∀ l2 : Nat, l ≤ l2 → l2 + 10 < 2 ^ 32 →
      SyncManager.calculateBufferAdjustment l ≤ SyncManager.calculateBufferAdjustment l2) := by
  simp only [SyncManager.calculateBufferAdjustment]
  refine ⟨fun h => ?_, Nat.min_le_right _ _, fun l2 h1 h2 => ?_⟩
  · rw [show (l % 2 ^ 32 + 10) % 2 ^ 32 = l + 10 by omega]
  · rw [show (l % 2 ^ 32 + 10) % 2 ^ 32 = l + 10 by omega,
      show (l2 % 2 ^ 32 + 10) % 2 ^ 32 = l2 + 10 by omega]
    exact min_le_min (by omega) le_rfl

/-- C5 witness: latency 25 gives min(35, 40) = 35. -/
theorem C5_witness :
    (25 + 10 < 2 ^ 32) ∧ SyncManager.calculateBufferAdjustment 25 = min (25 + 10) 40 :=
  ⟨by decide, (C5_buffer_adjustment_amended 25).1 (by decide)⟩

/-- C6 counterexample: verifySecurityToken checks current > expiry, not
now < expiry — at current exactly equal to expiry (token for node bytes
[110,49], ttl 1 s issued at 1000 ms, checked at 2000 ms) verification
succeeds even though the wall clock is not strictly before expiry. -/
theorem C6_counterexample :
    idTokenCrypto.verifySecurityToken
        (idTokenCrypto.generateSecurityToken [110, 49] 1 1000) 2000 =
      Except.ok ([110, 49], 2000) ∧ ¬ ((2000 : Nat) < 2000) :=
  ⟨rfl, by decide⟩

/-- C6 (amended): verification rejects with a Verification error exactly
when the wall clock is strictly past expiry; a token generated with any ttl
verifies while current ≤ expiry (given the AEAD round-trip, 64-byte
signatures, and a verifier accepting the instance signatures). -/
theorem C6_token_expiry_amended (c : TokenCrypto) (nodeId : List Nat)
    (ttl nowMs current : Nat)
    (hdec : ∀ x, c.dec (c.enc x) = Except.ok x)
    (hsiglen : ∀ m, (c.sign m).length = 64)
    (hsver : ∀ m, c.sverify nodeId m (c.sign m) = Except.ok true)
    (hsum : nowMs + ttl * 1000 < 2 ^ 64) (hcur : current < 2 ^ 64) :
    (current ≤ nowMs + ttl * 1000 →
      c.verifySecurityToken (c.generateSecurityToken nodeId ttl nowMs) current =
        Except.ok (nodeId, nowMs + ttl * 1000)) ∧
    (nowMs + ttl * 1000 < current →
      c.verifySecurityToken (c.generateSecurityToken nodeId ttl nowMs) current =
        Except.error CryptoErrorType.Verification) := by
  rw [TokenCrypto.verify_generate c nodeId ttl nowMs current hdec hsiglen hsver hsum hcur]
  constructor
  · intro h
    rw [if_neg (by omega)]
  · intro h
    rw [if_pos h]

/-- C6 witness: the ttl-1 s token verifies at 1500 ms and is rejected with
Verification at 2500 ms. -/
theorem C6_witness :
    idTokenCrypto.verifySecurityToken
        (idTokenCrypto.generateSecurityToken [110, 49] 1 1000) 1500 =
      Except.ok ([110, 49], 1000 + 1 * 1000) ∧
    idTokenCrypto.verifySecurityToken
        (idTokenCrypto.generateSecurityToken [110, 49] 1 1000) 2500 =
      Except.error CryptoErrorType.Verification :=
  ⟨(C6_token_expiry_amended idTokenCrypto [110, 49] 1 1000 1500 (fun _ => rfl)
      (fun _ => rfl) (fun _ => rfl) (by decide) (by decide)).1 (by decide),
    (C6_token_expiry_amended idTokenCrypto [110, 49] 1 1000 2500 (fun _ => rfl)
      (fun _ => rfl) (fun _ => rfl) (by decide) (by decide)).2 (by decide)⟩

/-- C7: the worker-loop drain has no exception handler — with a registered
handler that throws on the first packet of a two-packet batch, the loop
aborts with the handler error and the second packet (a Status update for
n2) is never processed, although processing the second packet alone would
update n2. This contradicts the claim (and spec §4.6) that handler errors
are reported and the next packet still processed. -/
theorem C7_worker_abort_on_handler_exception :
    MeshNetwork.runBatch throwingHandler demoMeshState 1000
        [MeshPacket.ping "boom" 5, MeshPacket.status "n2" 50 7] =
      Except.error "handler failure" ∧
    MeshNetwork.runBatch throwingHandler demoMeshState 1000
        [MeshPacket.status "n2" 50 7] =
      Except.ok (MeshNetwork.updateNodeStatus demoMeshState "n2" 50 7 1000) :=
  ⟨rfl, rfl⟩

/-- C8 counterexample: on a SyncEngine that was never initialized,
writeAudioData does not fail with NotInitialized — it silently returns 0
and leaves the engine unchanged (start, by contrast, does raise). -/
theorem C8_counterexample :
    seFresh.writeAudioData [1, 2, 3, 4] 1000 = (seFresh, 0) ∧
    seFresh.start 20 = Except.error EngineError.NotInitialized :=
  ⟨rfl, rfl⟩

/-- C8 (amended): before initialization, start fails with NotInitialized
for every buffer size, while write_audio_data never raises: it returns 0
and leaves the engine unchanged. -/
theorem C8_not_initialized_amended {α : Type} [Inhabited α] (se : SyncEngine α)
    (h : se.audio_stream = none) :
    (∀ b : Nat, se.start b = Except.error EngineError.NotInitialized) ∧
    (∀ (data : List α) (ts : Nat), se.writeAudioData data ts = (se, 0)) := by
  refine ⟨fun b => ?_, fun data ts => ?_⟩
  · simp only [SyncEngine.start, h]
  · simp only [SyncEngine.writeAudioData, h]

/-- C8 witness: the fresh 48 kHz stereo engine. -/
theorem C8_witness :
    seFresh.audio_stream = none ∧
    seFresh.start 30 = Except.error EngineError.NotInitialized ∧
    seFresh.writeAudioData [5] 7 = (seFresh, 0) :=
  ⟨rfl, (C8_not_initialized_amended seFresh rfl).1 30,
    (C8_not_initialized_amended seFresh rfl).2 [5] 7⟩

/-- C9 counterexample: only the low 4 bytes of the uint64 counter enter
the nonce, so call 1 and call 2^32 + 1 on one instance, at the same
millisecond timestamp, return identical nonces. -/
theorem C9_counterexample :
    MeshCrypto.nthNonce 1700000000000 1 =
      MeshCrypto.nthNonce 1700000000000 4294967297 ∧
    (1 : Nat) ≠ 4294967297 := by
  constructor
  · rw [MeshCrypto.nthNonce_eq _ 1 (by omega),
      MeshCrypto.nthNonce_eq _ 4294967297 (by omega)]
    decide
  · decide

/-- C9 (amended): two distinct calls at the same millisecond timestamp
return different nonces whenever their ordinals are not congruent mod 2^32
(in particular, any two distinct calls among 2^32 consecutive ones). -/
theorem C9_nonce_uniqueness_amended (ts i j : Nat) (hi : 1 ≤ i) (hj : 1 ≤ j)
    (hmod : i % 2 ^ 32 ≠ j % 2 ^ 32) :
    MeshCrypto.nthNonce ts i ≠ MeshCrypto.nthNonce ts j := by
  rw [MeshCrypto.nthNonce_eq ts i hi, MeshCrypto.nthNonce_eq ts j hj]
  intro h
  have h2 := List.append_cancel_left h
  exact hmod (le32_inj _ _ (Nat.mod_lt _ (by norm_num)) (Nat.mod_lt _ (by norm_num)) h2)

/-- C9 witness: the first and second calls at timestamp 1000 differ. -/
theorem C9_witness :
    (1 : Nat) % 2 ^ 32 ≠ (2 : Nat) % 2 ^ 32 ∧
    MeshCrypto.nthNonce 1000 1 ≠ MeshCrypto.nthNonce 1000 2 :=
  ⟨by decide,
    C9_nonce_uniqueness_amended 1000 1 2 (by decide) (by decide) (by decide)⟩

/-- C10: floor-division timestamp advance — on the Δ ≥ 0 path the head
timestamp advances by the Nat (floor) divisions skipped/samples_per_ms and
read_frames/samples_per_ms; consequently a loop of on-time reads of fewer
than samples_per_ms frames per call drains count·channels samples per call
without ever advancing the head timestamp. -/
theorem C10_floor_division_advance {α : Type} [Zero α] (ab : AudioBuffer α)
    (count : Nat) (hwf : ab.inner.wf) (hch : 0 < ab.channels)
    (hcount : count < ab.samples_per_ms) (hts63 : ab.timestamp < 2 ^ 63) :
    (∀ count2 now2 : Nat, ab.inner.size ≠ 0 → ab.timestamp ≤ now2 → now2 < 2 ^ 63 →
      (ab.read_samples count2 now2).1.timestamp =
        (ab.timestamp +
          min ((now2 - ab.timestamp) * ab.samples_per_ms) (ab.inner.size / ab.channels) /
            ab.samples_per_ms +
          min (count2 * ab.channels)
            (ab.inner.size -
              min ((now2 - ab.timestamp) * ab.samples_per_ms)
                (ab.inner.size / ab.channels) * ab.channels) /
            ab.channels / ab.samples_per_ms) % 2 ^ 64) ∧
    (∀ k : Nat,
      (ab.readLoop count ab.timestamp k).timestamp = ab.timestamp ∧
      (ab.readLoop count ab.timestamp k).inner.size =
        ab.inner.size - k * (count * ab.channels)) := by
  constructor
  · intro count2 now2 hne hts hlt
    rw [AudioBuffer.read_samples_late_spec ab count2 now2 hwf hne hts hlt]
  · intro k
    exact AudioBuffer.readLoop_small count k ab ab.timestamp hwf hch hcount hts63 rfl

set_option maxRecDepth 4000 in
/-- C10 witness: three successive on-time 5-frame reads of the 8 kHz
stereo buffer consume 30 samples and never move the head timestamp. -/
theorem C10_witness :
    abDemo.inner.wf ∧ 0 < abDemo.channels ∧ 5 < abDemo.samples_per_ms ∧
    abDemo.timestamp < 2 ^ 63 ∧
    (abDemo.readLoop 5 abDemo.timestamp 3).timestamp = abDemo.timestamp ∧
    (abDemo.readLoop 5 abDemo.timestamp 3).inner.size =
      abDemo.inner.size - 3 * (5 * abDemo.channels) := by
  refine ⟨by decide, by decide, by decide, by decide, ?_, ?_⟩
  · exact ((C10_floor_division_advance abDemo 5 (by decide) (by decide)
      (by decide) (by decide)).2 3).1
  · exact ((C10_floor_division_advance abDemo 5 (by decide) (by decide)
      (by decide) (by decide)).2 3).2

end Saber
